import Mathlib

/-! Verification development for the service supervisor of the go-ci
repository: a shallow embedding of src/exithandler/service.go (package
exithandler: WrapServices, runServices, runService, buildShutdownMessage,
the stopNotif record and the errDone sentinel) together with the
GenericService adapter.

Concurrency is modelled by an interleaving trace semantics: a supervision
run is a list of atomic events (a service's Start returning, the signal
goroutine catching a signal, a service's Stop being entered, a service's
Stop returning), executed by a step function over an explicit state that
mirrors the observable state of WrapServices (per-service progress flags,
the shared cancellable group context, the caught signal, the first error
retained by the errgroup, and the buffered outcome channel). The pure
tail of WrapServices after svcGroup.Wait() (building the shutdown reason,
the SIGTERM restart suppression, the notification call and the returned
value) is embedded as a pure function of that state. -/

namespace ExitHandler

/-- Stop signals registered by WrapServices (service.go, stopSignals). -/
inductive Sig where
  | SIGHUP
  | SIGINT
  | SIGTERM
  | SIGQUIT
deriving DecidableEq

/-- Rendering of each signal by Go's fmt %s verb (os.Signal.String),
as used in the "process caught signal: %s" message. -/
def sigString : Sig → String
  | Sig.SIGHUP => "hangup"
  | Sig.SIGINT => "interrupt"
  | Sig.SIGTERM => "terminated"
  | Sig.SIGQUIT => "quit"

/-- A non-nil Go error value handed to the errgroup by a run unit: either
the distinguished sentinel errDone (service.go line 31) or a
service-produced error, identified by its message. -/
inductive GErr where
  | done
  | fail (msg : String)
deriving DecidableEq

/-- Model of one supervised service for one run: its name together with
the error results its Start and Stop calls produce in this run
(none models a nil Go error, some msg a non-nil error with that message). -/
structure Svc where
  name : String
  startErr : Option String
  stopErr : Option String
deriving DecidableEq

/-- The stopNotif record of service.go (lines 25-29). -/
structure stopNotif where
  err : Option String
  service : String
  reason : String
deriving DecidableEq

/-- Outcome record pushed on the notifyErr channel by the start goroutine
of runService (service.go lines 105-119). -/
def startNotifOf (s : Svc) : stopNotif :=
  { err := s.startErr
    service := s.name
    reason := if s.startErr.isSome then "finished with error" else "finished without error" }

/-- Value returned by the start goroutine to the errgroup: the errDone
sentinel when Start returned nil, otherwise the error itself
(service.go lines 121-127). The start goroutine always returns a
non-nil error, so its return always cancels the group context. -/
def startRetOf (s : Svc) : GErr :=
  match s.startErr with
  | none => GErr.done
  | some msg => GErr.fail msg

/-- Outcome record pushed on the notifyErr channel by the stop goroutine
of runService (service.go lines 137-151). -/
def stopNotifOf (s : Svc) : stopNotif :=
  { err := s.stopErr
    service := s.name
    reason := if s.stopErr.isSome then "stopped with error" else "stopped without error" }

/-- Value returned by the stop goroutine to the errgroup
(service.go line 153): the Stop error, which may be nil. -/
def stopRetOf (s : Svc) : Option GErr :=
  match s.stopErr with
  | none => none
  | some msg => some (GErr.fail msg)

/-- One atomic scheduler event inside a supervision run. Service indices
refer to positions in the registered service list. -/
inductive Act where
  | start (i : Nat)
  | signal (sig : Sig)
  | stopBegin (i : Nat)
  | stopEnd (i : Nat)
deriving DecidableEq

/-- Observable state of one WrapServices invocation: which start
goroutines have returned, which stop goroutines have entered and finished
serv.Stop, whether the shared group context is cancelled, the signal
recorded by the signal goroutine, the first non-nil error retained by the
errgroup (the value svcGroup.Wait() later returns), and the contents of
the buffered notifyErr channel in send order. -/
structure St where
  startDone : List Bool
  stopStarted : List Bool
  stopDone : List Bool
  cancelled : Bool
  caughtSignal : Option Sig
  groupErr : Option GErr
  chan : List stopNotif
deriving DecidableEq

/-- State at the point where WrapServices has installed the signal
handler and runServices has launched both goroutines for every service:
nothing has returned yet, the context is live, the channel is empty. -/
def initSt (svcs : List Svc) : St :=
  { startDone := List.replicate svcs.length false
    stopStarted := List.replicate svcs.length false
    stopDone := List.replicate svcs.length false
    cancelled := false
    caughtSignal := none
    groupErr := none
    chan := [] }

/-- First-error retention of golang.org/x/sync/errgroup: the first
non-nil error returned by any goroutine is kept, later ones are dropped. -/
def pushErr (g : Option GErr) (e : GErr) : Option GErr :=
  match g with
  | none => some e
  | some e0 => some e0

/-- One interleaving step of the supervision run.

Act.start i: service i's Start() returns (service.go lines 105-127); the
outcome record is sent, the return value (always non-nil: errDone or the
error) reaches the errgroup, which retains it if first and cancels the
group context.

Act.signal sig: the signal goroutine (service.go lines 49-53) receives
one signal, records it and cancels the main (hence group) context; the
sigs channel is read once, so at most one signal is caught.

Act.stopBegin i: service i's stop goroutine passes the
<-svcGroupCtx.Done() guard (service.go line 138) and enters serv.Stop;
this is only enabled once the group context is cancelled and only once
per service.

Act.stopEnd i: service i's Stop returns (service.go lines 139-153); the
outcome record is sent and the Stop error, if non-nil, reaches the
errgroup. The group context is already cancelled here because the stop
goroutine only runs after cancellation. -/
def step (svcs : List Svc) (st : St) : Act → Option St
  | Act.start i =>
    match svcs[i]? with
    | none => none
    | some s =>
      if st.startDone.getD i false then none
      else
        some { st with
          startDone := st.startDone.set i true
          chan := st.chan ++ [startNotifOf s]
          groupErr := pushErr st.groupErr (startRetOf s)
          cancelled := true }
  | Act.signal sig =>
    if st.caughtSignal.isSome then none
    else some { st with caughtSignal := some sig, cancelled := true }
  | Act.stopBegin i =>
    match svcs[i]? with
    | none => none
    | some _ =>
      if st.cancelled = false then none
      else if st.stopStarted.getD i false then none
      else some { st with stopStarted := st.stopStarted.set i true }
  | Act.stopEnd i =>
    match svcs[i]? with
    | none => none
    | some s =>
      if st.stopStarted.getD i false = false then none
      else if st.stopDone.getD i false then none
      else
        some { st with
          stopDone := st.stopDone.set i true
          chan := st.chan ++ [stopNotifOf s]
          groupErr :=
            match stopRetOf s with
            | none => st.groupErr
            | some e => pushErr st.groupErr e }

/-- Execution of a whole interleaving: fold the step function over the
event list from the initial state; none means the event list is not a
legal schedule of this run. -/
def runTrace (svcs : List Svc) (acts : List Act) : Option St :=
  acts.foldlM (step svcs) (initSt svcs)

/-- The join barrier of svcGroup.Wait() (service.go line 62): every start
goroutine and every stop goroutine has returned. -/
def joined (st : St) : Bool :=
  st.startDone.all (fun b => b) && st.stopDone.all (fun b => b)

/-- buildShutdownMessage (service.go lines 156-166): fold the drained
outcome records into one multi-line reason string. -/
def buildShutdownMessage (records : List stopNotif) : String :=
  records.foldl
    (fun errStr nr =>
      match nr.err with
      | some msg => errStr ++ (nr.service ++ ": " ++ nr.reason ++ " " ++ msg ++ "\n")
      | none => errStr ++ (nr.service ++ ": " ++ nr.reason ++ "\n"))
    ""

/-- The shutdown reason computed by WrapServices (service.go lines
69-72): the folded per-service message, overridden by the caught-signal
message when a signal was caught. -/
def shutdownReason (st : St) : String :=
  match st.caughtSignal with
  | some sig => "process caught signal: " ++ sigString sig
  | none => buildShutdownMessage st.chan

/-- Go runtime panic relevant to this code: invoking a nil function
value. -/
inductive GoPanic where
  | nilFuncCall
deriving DecidableEq

/-- Observable outcome of the tail of WrapServices: the value it returns
to its caller, the computed shutdown reason, the reason the notification
function was invoked with (none when the call was suppressed or skipped),
and the error the notification function itself returned, which is only
logged (service.go lines 77-82). -/
structure WrapResult where
  ret : Option String
  reason : String
  notified : Option String
  notifyRetErr : Option String
deriving DecidableEq

/-- The tail of WrapServices after svcGroup.Wait() has returned and the
notifyErr channel has been closed (service.go lines 65-90): build the
reason, suppress notification when the caught signal is SIGTERM
(isSystemdRestart) or shouldNotify is false, otherwise invoke notify with
the reason (a nil notify function value panics when invoked, modelled by
the Except error), log but never return its error, and return nil. -/
def wrapFinish (notify : Option (String → Option String)) (shouldNotify : Bool)
    (st : St) : Except GoPanic WrapResult :=
  let reason := shutdownReason st
  let isSystemdRestart : Bool :=
    match st.caughtSignal with
    | some Sig.SIGTERM => true
    | _ => false
  if shouldNotify && !isSystemdRestart then
    match notify with
    | none => Except.error GoPanic.nilFuncCall
    | some f =>
      let notifiedErr := f reason
      Except.ok { ret := none, reason := reason, notified := some reason
                  notifyRetErr := notifiedErr }
  else
    Except.ok { ret := none, reason := reason, notified := none, notifyRetErr := none }

/-- Buffer capacity of the notifyErr channel
(service.go line 56: make(chan stopNotif, len(services)*2)). -/
def notifyErrCapacity (svcs : List Svc) : Nat := svcs.length * 2

/-- A whole WrapServices invocation whose goroutine interleaving is acts:
the run must be a legal schedule that reaches the join barrier of
svcGroup.Wait() (WrapServices only proceeds past Wait once every unit has
returned), after which the pure tail runs. -/
def wrapServices (notify : Option (String → Option String)) (shouldNotify : Bool)
    (svcs : List Svc) (acts : List Act) : Option (Except GoPanic WrapResult) :=
  match runTrace svcs acts with
  | none => none
  | some st => if joined st then some (wrapFinish notify shouldNotify st) else none

/-- Events whose step cancels the shared group context: a start goroutine
returning (it always hands the errgroup a non-nil error) or the signal
goroutine catching a signal. -/
def cancelTrigger : Act → Bool
  | Act.start _ => true
  | Act.signal _ => true
  | _ => false

/-- Terminal events of the spec: a start returning, a stop returning, or
a caught signal. -/
def terminalAct : Act → Bool
  | Act.start _ => true
  | Act.signal _ => true
  | Act.stopEnd _ => true
  | _ => false

/-- Well-formedness invariant of every reachable supervision state. -/
structure Wf (svcs : List Svc) (st : St) : Prop where
  lenStart : st.startDone.length = svcs.length
  lenStopS : st.stopStarted.length = svcs.length
  lenStopD : st.stopDone.length = svcs.length
  startCancel : ∀ i, st.startDone.getD i false = true → st.cancelled = true
  stopSCancel : ∀ i, st.stopStarted.getD i false = true → st.cancelled = true
  stopDS : ∀ i, st.stopDone.getD i false = true → st.stopStarted.getD i false = true
  startRec : ∀ i s, svcs[i]? = some s → st.startDone.getD i false = true →
    startNotifOf s ∈ st.chan
  stopRec : ∀ i s, svcs[i]? = some s → st.stopDone.getD i false = true →
    stopNotifOf s ∈ st.chan
  chanLen : st.chan.length = st.startDone.count true + st.stopDone.count true

/- Concrete example runs used by witnesses. -/

/-- Example service whose Start and Stop both return nil. -/
def exSvc : Svc := ⟨"a", none, none⟩

/-- Example one-service registration. -/
def exSvcs : List Svc := [exSvc]

/-- Example full schedule of the one-service run. -/
def exTrace : List Act := [Act.start 0, Act.stopBegin 0, Act.stopEnd 0]

/-- Final state of the example run (checked below against runTrace). -/
def exSt : St :=
  { startDone := [true]
    stopStarted := [true]
    stopDone := [true]
    cancelled := true
    caughtSignal := none
    groupErr := some GErr.done
    chan := [startNotifOf exSvc, stopNotifOf exSvc] }

/-- The example final state with a caught interrupt signal. -/
def exStSig : St := { exSt with caughtSignal := some Sig.SIGINT }

/-- The example final state with a caught SIGTERM. -/
def exStTerm : St := { exSt with caughtSignal := some Sig.SIGTERM }

/-- Service whose Start fails with a genuine error. -/
def cexSvc : Svc := ⟨"s1", some ("disk full"), none⟩

/-- One-service registration whose Start fails. -/
def cexSvcs : List Svc := [cexSvc]

/-- Full schedule of the failing run. -/
def cexTrace : List Act := [Act.start 0, Act.stopBegin 0, Act.stopEnd 0]

/-- Final state of the failing run: the errgroup retained the genuine
error as its first error. -/
def cexSt : St :=
  { startDone := [true]
    stopStarted := [true]
    stopDone := [true]
    cancelled := true
    caughtSignal := none
    groupErr := some (GErr.fail ("disk full"))
    chan := [startNotifOf cexSvc, stopNotifOf cexSvc] }

/- The GenericService adapter (the unnamed exithandler source file,
lines 5-43). Go function values may carry effects; a callable is
therefore modelled as a state transformer over an abstract world type σ,
with error type ε and context type γ, so that exact forwarding (same
result, same effect on the world) is expressible. -/

/-- StartFunc: the signature of the Start method. -/
def StartFunc (σ ε : Type) : Type := σ → Option ε × σ

/-- ShutdownFunc: the signature of the Shutdown method. -/
def ShutdownFunc (σ γ ε : Type) : Type := γ → σ → Option ε × σ

/-- GenericService: a wrapper that lets any pair of functions matching
StartFunc and ShutdownFunc be used as a Service. -/
structure GenericService (σ γ ε : Type) where
  name : String
  startFunc : StartFunc σ ε
  shutdownFunc : ShutdownFunc σ γ ε

/-- NewService returns a new GenericService. -/
def NewService {σ γ ε : Type} (name : String) (start : StartFunc σ ε)
    (shutdown : ShutdownFunc σ γ ε) : GenericService σ γ ε :=
  { name := name, startFunc := start, shutdownFunc := shutdown }

/-- Name returns the stored name. -/
def GenericService.Name {σ γ ε : Type} (gs : GenericService σ γ ε) : String :=
  gs.name

/-- Start calls the stored StartFunc. -/
def GenericService.Start {σ γ ε : Type} (gs : GenericService σ γ ε) : StartFunc σ ε :=
  fun w => gs.startFunc w

/-- Stop calls the stored ShutdownFunc. -/
def GenericService.Stop {σ γ ε : Type} (gs : GenericService σ γ ε) (ctx : γ) :
    σ → Option ε × σ :=
  fun w => gs.shutdownFunc ctx w

/-! Helper lemmas about Bool lists used for the per-service flags. -/

theorem getD_set_self (l : List Bool) (i : Nat) (h : i < l.length) :
    (l.set i true).getD i false = true := by
  simp [List.getD_eq_getElem?_getD, List.getElem?_set, h]

theorem getD_set_ne (l : List Bool) {i j : Nat} (h : j ≠ i) (b : Bool) :
    (l.set j b).getD i false = l.getD i false := by
  simp [List.getD_eq_getElem?_getD, List.getElem?_set, h]

theorem lt_length_of_getD_true {l : List Bool} {j : Nat} (h : l.getD j false = true) :
    j < l.length := by
  by_contra hc
  rw [List.getD_eq_getElem?_getD, List.getElem?_eq_none (by omega)] at h
  simp at h

theorem getD_set_true_of_getD {l : List Bool} (i : Nat) {j : Nat}
    (h : l.getD j false = true) : (l.set i true).getD j false = true := by
  by_cases hij : i = j
  · subst hij
    exact getD_set_self l i (lt_length_of_getD_true h)
  · rw [getD_set_ne l hij]
    exact h

theorem count_true_set : ∀ (l : List Bool) (i : Nat), i < l.length →
    l.getD i false = false → (l.set i true).count true = l.count true + 1
  | [], i, h, _ => absurd h (by simp)
  | b :: t, 0, _, h2 => by
    have hb : b = false := by simpa [List.getD] using h2
    subst hb
    simp [List.count_cons]
  | b :: t, i + 1, h, h2 => by
    have ih := count_true_set t i (by simpa using h) (by simpa [List.getD] using h2)
    simp only [List.set, List.count_cons, ih]
    omega

theorem all_true_getD {l : List Bool} (h : l.all (fun b => b) = true)
    {i : Nat} (hi : i < l.length) : l.getD i false = true := by
  rw [List.getD_eq_getElem?_getD, List.getElem?_eq_getElem hi]
  exact List.all_eq_true.mp h _ (List.getElem_mem hi)

theorem count_true_of_all : ∀ {l : List Bool}, l.all (fun b => b) = true →
    l.count true = l.length
  | [], _ => rfl
  | b :: t, h => by
    rw [List.all_cons] at h
    obtain ⟨hb, ht⟩ := (Bool.and_eq_true _ _).mp h
    simp [List.count_cons, hb, count_true_of_all ht]

theorem getD_replicate_false (n i : Nat) :
    (List.replicate n false).getD i false = false := by
  rw [List.getD_eq_getElem?_getD, List.getElem?_replicate]
  split <;> rfl

theorem lt_of_getElem?_some {α : Type} {l : List α} {i : Nat} {s : α}
    (h : l[i]? = some s) : i < l.length :=
  (List.getElem?_eq_some.mp h).1

/-! Inversion lemmas for each kind of step. -/

theorem step_start_inv {svcs : List Svc} {st st' : St} {i : Nat}
    (h : step svcs st (Act.start i) = some st') :
    ∃ s, svcs[i]? = some s ∧ st.startDone.getD i false = false ∧
      st' = { st with
        startDone := st.startDone.set i true
        chan := st.chan ++ [startNotifOf s]
        groupErr := pushErr st.groupErr (startRetOf s)
        cancelled := true } := by
  simp only [step] at h
  cases hsv : svcs[i]? with
  | none => rw [hsv] at h; cases h
  | some s =>
    rw [hsv] at h
    simp only at h
    by_cases hd : st.startDone.getD i false = true
    · rw [if_pos hd] at h; cases h
    · rw [if_neg hd] at h
      exact ⟨s, rfl, by simpa using hd, (Option.some.inj h).symm⟩

theorem step_signal_inv {svcs : List Svc} {st st' : St} {sig : Sig}
    (h : step svcs st (Act.signal sig) = some st') :
    st.caughtSignal = none ∧
      st' = { st with caughtSignal := some sig, cancelled := true } := by
  simp only [step] at h
  by_cases hc : st.caughtSignal.isSome = true
  · rw [if_pos hc] at h; cases h
  · rw [if_neg hc] at h
    refine ⟨?_, (Option.some.inj h).symm⟩
    cases hcs : st.caughtSignal with
    | none => rfl
    | some s0 => rw [hcs] at hc; simp at hc

theorem step_stopBegin_inv {svcs : List Svc} {st st' : St} {i : Nat}
    (h : step svcs st (Act.stopBegin i) = some st') :
    (∃ s, svcs[i]? = some s) ∧ st.cancelled = true ∧
      st.stopStarted.getD i false = false ∧
      st' = { st with stopStarted := st.stopStarted.set i true } := by
  simp only [step] at h
  cases hsv : svcs[i]? with
  | none => rw [hsv] at h; cases h
  | some s =>
    rw [hsv] at h
    simp only at h
    by_cases hc : st.cancelled = false
    · rw [if_pos hc] at h; cases h
    · rw [if_neg hc] at h
      by_cases hd : st.stopStarted.getD i false = true
      · rw [if_pos hd] at h; cases h
      · rw [if_neg hd] at h
        exact ⟨⟨s, rfl⟩, by simpa using hc, by simpa using hd, (Option.some.inj h).symm⟩

theorem step_stopEnd_inv {svcs : List Svc} {st st' : St} {i : Nat}
    (h : step svcs st (Act.stopEnd i) = some st') :
    ∃ s, svcs[i]? = some s ∧ st.stopStarted.getD i false = true ∧
      st.stopDone.getD i false = false ∧
      st' = { st with
        stopDone := st.stopDone.set i true
        chan := st.chan ++ [stopNotifOf s]
        groupErr :=
          match stopRetOf s with
          | none => st.groupErr
          | some e => pushErr st.groupErr e } := by
  simp only [step] at h
  cases hsv : svcs[i]? with
  | none => rw [hsv] at h; cases h
  | some s =>
    rw [hsv] at h
    simp only at h
    by_cases hs : st.stopStarted.getD i false = false
    · rw [if_pos hs] at h; cases h
    · rw [if_neg hs] at h
      by_cases hd : st.stopDone.getD i false = true
      · rw [if_pos hd] at h; cases h
      · rw [if_neg hd] at h
        exact ⟨s, rfl, by simpa using hs, by simpa using hd, (Option.some.inj h).symm⟩

/-! Preservation of the well-formedness invariant. -/

theorem wf_init (svcs : List Svc) : Wf svcs (initSt svcs) := by
  constructor <;>
    simp [initSt, getD_replicate_false, List.count_replicate]

theorem wf_step {svcs : List Svc} {st st' : St} {a : Act}
    (hw : Wf svcs st) (h : step svcs st a = some st') : Wf svcs st' := by
  cases a with
  | start i =>
    obtain ⟨s, hsv, hd, rfl⟩ := step_start_inv h
    have hi : i < st.startDone.length := by
      rw [hw.lenStart]; exact lt_of_getElem?_some hsv
    refine ⟨?_, ?_, ?_, ?_, ?_, ?_, ?_, ?_, ?_⟩
    · simp [List.length_set, hw.lenStart]
    · exact hw.lenStopS
    · exact hw.lenStopD
    · intro j _; rfl
    · intro j _; rfl
    · exact hw.stopDS
    · intro j s' hsv' hj
      by_cases hij : i = j
      · subst hij
        rw [hsv] at hsv'
        cases hsv'
        exact List.mem_append_right _ (by simp)
      · rw [getD_set_ne _ hij] at hj
        exact List.mem_append_left _ (hw.startRec j s' hsv' hj)
    · intro j s' hsv' hj
      exact List.mem_append_left _ (hw.stopRec j s' hsv' hj)
    · have := count_true_set st.startDone i hi hd
      simp only [List.length_append, List.length_singleton, this, hw.chanLen]
      omega
  | signal sig =>
    obtain ⟨hc, rfl⟩ := step_signal_inv h
    exact ⟨hw.lenStart, hw.lenStopS, hw.lenStopD, fun j _ => rfl, fun j _ => rfl,
      hw.stopDS, hw.startRec, hw.stopRec, hw.chanLen⟩
  | stopBegin i =>
    obtain ⟨⟨s, hsv⟩, hc, hd, rfl⟩ := step_stopBegin_inv h
    refine ⟨hw.lenStart, ?_, hw.lenStopD, hw.startCancel, ?_, ?_, hw.startRec,
      hw.stopRec, hw.chanLen⟩
    · simp [List.length_set, hw.lenStopS]
    · intro j _; exact hc
    · intro j hj
      exact getD_set_true_of_getD i (hw.stopDS j hj)
  | stopEnd i =>
    obtain ⟨s, hsv, hs, hd, rfl⟩ := step_stopEnd_inv h
    have hi : i < st.stopDone.length := by
      rw [hw.lenStopD]; exact lt_of_getElem?_some hsv
    refine ⟨hw.lenStart, hw.lenStopS, ?_, hw.startCancel, hw.stopSCancel, ?_, ?_, ?_, ?_⟩
    · simp [List.length_set, hw.lenStopD]
    · intro j hj
      by_cases hij : i = j
      · subst hij; exact hs
      · rw [getD_set_ne _ hij] at hj
        exact hw.stopDS j hj
    · intro j s' hsv' hj
      exact List.mem_append_left _ (hw.startRec j s' hsv' hj)
    · intro j s' hsv' hj
      by_cases hij : i = j
      · subst hij
        rw [hsv] at hsv'
        cases hsv'
        exact List.mem_append_right _ (by simp)
      · rw [getD_set_ne _ hij] at hj
        exact List.mem_append_left _ (hw.stopRec j s' hsv' hj)
    · have := count_true_set st.stopDone i hi hd
      simp only [List.length_append, List.length_singleton, this, hw.chanLen]
      omega

theorem wf_foldlM {svcs : List Svc} :
    ∀ {acts : List Act} {st st' : St}, Wf svcs st →
      acts.foldlM (step svcs) st = some st' → Wf svcs st'
  | [], _, _, hw, h => by
    rw [List.foldlM_nil] at h
    cases h
    exact hw
  | _ :: rest, st, st', hw, h => by
    rw [List.foldlM_cons] at h
    obtain ⟨st1, h1, h2⟩ := Option.bind_eq_some.mp h
    exact wf_foldlM (wf_step hw h1) h2

theorem runTrace_wf {svcs : List Svc} {acts : List Act} {st : St}
    (h : runTrace svcs acts = some st) : Wf svcs st :=
  wf_foldlM (wf_init svcs) h

/-! Trace-level lemmas: how often a stop can be entered, and where
cancellation of the shared context can come from. -/

theorem count_stopBegin_foldlM {svcs : List Svc} :
    ∀ {acts : List Act} {st st' : St} (i : Nat), Wf svcs st →
      acts.foldlM (step svcs) st = some st' →
      acts.count (Act.stopBegin i)
          + (if st.stopStarted.getD i false then 1 else 0)
        = (if st'.stopStarted.getD i false then 1 else 0)
  | [], st, st', i, _, h => by
    rw [List.foldlM_nil] at h
    cases h
    simp
  | a :: rest, st, st', i, hw, h => by
    rw [List.foldlM_cons] at h
    obtain ⟨st1, h1, h2⟩ := Option.bind_eq_some.mp h
    have ih := count_stopBegin_foldlM i (wf_step hw h1) h2
    cases a with
    | start j =>
      obtain ⟨s, hsv, hd, rfl⟩ := step_start_inv h1
      simpa [List.count_cons] using ih
    | signal sig =>
      obtain ⟨hc, rfl⟩ := step_signal_inv h1
      simpa [List.count_cons] using ih
    | stopBegin j =>
      obtain ⟨⟨s, hsv⟩, hc, hd, rfl⟩ := step_stopBegin_inv h1
      by_cases hij : j = i
      · subst hij
        have hjlen : j < st.stopStarted.length := by
          rw [hw.lenStopS]; exact lt_of_getElem?_some hsv
        rw [getD_set_self _ _ hjlen] at ih
        rw [if_pos rfl] at ih
        have hcount : (Act.stopBegin j :: rest).count (Act.stopBegin j)
            = rest.count (Act.stopBegin j) + 1 := by
          simp [List.count_cons]
        rw [hcount, hd, if_neg (by decide : ¬ false = true)]
        omega
      · have hgd : (st.stopStarted.set j true).getD i false = st.stopStarted.getD i false :=
          getD_set_ne _ hij _
        rw [hgd] at ih
        simp only [List.count_cons, beq_iff_eq, Act.stopBegin.injEq] at ih ⊢
        rw [if_neg hij]
        omega
    | stopEnd j =>
      obtain ⟨s, hsv, hs, hd, rfl⟩ := step_stopEnd_inv h1
      simpa [List.count_cons] using ih

theorem exists_trigger_of_cancelled {svcs : List Svc} :
    ∀ {acts : List Act} {st st' : St}, Wf svcs st →
      acts.foldlM (step svcs) st = some st' →
      st.cancelled = false → st'.cancelled = true →
      ∃ a ∈ acts, cancelTrigger a = true
  | [], st, st', _, h, hf, ht => by
    rw [List.foldlM_nil] at h
    cases h
    rw [hf] at ht
    cases ht
  | a :: rest, st, st', hw, h, hf, ht => by
    cases a with
    | start j => exact ⟨Act.start j, by simp, rfl⟩
    | signal sig => exact ⟨Act.signal sig, by simp, rfl⟩
    | stopBegin j =>
      rw [List.foldlM_cons] at h
      obtain ⟨st1, h1, _⟩ := Option.bind_eq_some.mp h
      obtain ⟨_, hc, _, _⟩ := step_stopBegin_inv h1
      rw [hf] at hc
      cases hc
    | stopEnd j =>
      rw [List.foldlM_cons] at h
      obtain ⟨st1, h1, _⟩ := Option.bind_eq_some.mp h
      obtain ⟨s, hsv, hs, _, _⟩ := step_stopEnd_inv h1
      have := hw.stopSCancel j hs
      rw [hf] at this
      cases this

theorem runTrace_append_inv {svcs : List Svc} {p q : List Act} {st' : St}
    (h : runTrace svcs (p ++ q) = some st') :
    ∃ stp, runTrace svcs p = some stp ∧ q.foldlM (step svcs) stp = some st' := by
  unfold runTrace at h ⊢
  rw [List.foldlM_append] at h
  exact Option.bind_eq_some.mp h

theorem stopBegin_needs_cancelled {svcs : List Svc} {p q : List Act} {i : Nat} {st' : St}
    (h : runTrace svcs (p ++ Act.stopBegin i :: q) = some st') :
    ∃ stp, runTrace svcs p = some stp ∧ stp.cancelled = true := by
  obtain ⟨stp, hp, hq⟩ := runTrace_append_inv h
  rw [List.foldlM_cons] at hq
  obtain ⟨st1, h1, _⟩ := Option.bind_eq_some.mp hq
  obtain ⟨_, hc, _, _⟩ := step_stopBegin_inv h1
  exact ⟨stp, hp, hc⟩

theorem cancelled_after_terminal {svcs : List Svc} {p : List Act} {a : Act} {st1 : St}
    (h : runTrace svcs (p ++ [a]) = some st1) (ht : terminalAct a = true) :
    st1.cancelled = true := by
  obtain ⟨stp, hp, hq⟩ := runTrace_append_inv h
  rw [List.foldlM_cons] at hq
  obtain ⟨st2, h1, h2⟩ := Option.bind_eq_some.mp hq
  rw [List.foldlM_nil] at h2
  have h2 : st2 = st1 := Option.some.inj h2
  subst h2
  cases a with
  | start j =>
    obtain ⟨s, _, _, rfl⟩ := step_start_inv h1
    rfl
  | signal sig =>
    obtain ⟨_, rfl⟩ := step_signal_inv h1
    rfl
  | stopBegin j => cases ht
  | stopEnd j =>
    obtain ⟨s, _, hs, _, rfl⟩ := step_stopEnd_inv h1
    exact (runTrace_wf hp).stopSCancel j hs

/-! Consequences of reaching the join barrier. -/

theorem joined_flags {svcs : List Svc} {st : St} (hw : Wf svcs st)
    (hj : joined st = true) :
    ∀ i, i < svcs.length →
      st.startDone.getD i false = true ∧ st.stopDone.getD i false = true := by
  intro i hi
  obtain ⟨h1, h2⟩ := (Bool.and_eq_true _ _).mp hj
  constructor
  · exact all_true_getD h1 (by rw [hw.lenStart]; exact hi)
  · exact all_true_getD h2 (by rw [hw.lenStopD]; exact hi)

theorem joined_chan_length {svcs : List Svc} {st : St} (hw : Wf svcs st)
    (hj : joined st = true) : st.chan.length = 2 * svcs.length := by
  obtain ⟨h1, h2⟩ := (Bool.and_eq_true _ _).mp hj
  have e1 : st.startDone.count true = svcs.length := by
    rw [count_true_of_all h1, hw.lenStart]
  have e2 : st.stopDone.count true = svcs.length := by
    rw [count_true_of_all h2, hw.lenStopD]
  rw [hw.chanLen, e1, e2]
  omega

theorem joined_records {svcs : List Svc} {st : St} (hw : Wf svcs st)
    (hj : joined st = true) :
    ∀ (i : Nat) (s : Svc), svcs[i]? = some s →
      startNotifOf s ∈ st.chan ∧ stopNotifOf s ∈ st.chan := by
  intro i s hsv
  have hf := joined_flags hw hj i (lt_of_getElem?_some hsv)
  exact ⟨hw.startRec i s hsv hf.1, hw.stopRec i s hsv hf.2⟩

theorem wrapServices_some_inv {n : Option (String → Option String)} {b : Bool}
    {svcs : List Svc} {acts : List Act} {res : Except GoPanic WrapResult}
    (h : wrapServices n b svcs acts = some res) :
    ∃ st, runTrace svcs acts = some st ∧ joined st = true ∧ res = wrapFinish n b st := by
  unfold wrapServices at h
  cases hr : runTrace svcs acts with
  | none => rw [hr] at h; cases h
  | some st =>
    rw [hr] at h
    simp only at h
    by_cases hj : joined st = true
    · rw [if_pos hj] at h
      exact ⟨st, rfl, hj, (Option.some.inj h).symm⟩
    · rw [if_neg hj] at h
      cases h

theorem wrapFinish_ok (f : String → Option String) (b : Bool) (st : St) :
    wrapFinish (some f) b st =
      Except.ok
        { ret := none
          reason := shutdownReason st
          notified :=
            if b = true ∧ st.caughtSignal ≠ some Sig.SIGTERM
            then some (shutdownReason st) else none
          notifyRetErr :=
            if b = true ∧ st.caughtSignal ≠ some Sig.SIGTERM
            then f (shutdownReason st) else none } := by
  by_cases hterm : st.caughtSignal = some Sig.SIGTERM
  · rw [if_neg (fun hand => hand.2 hterm), if_neg (fun hand => hand.2 hterm)]
    simp [wrapFinish, hterm]
  · have hrest :
        (match st.caughtSignal with
          | some Sig.SIGTERM => true
          | _ => false) = false := by
      cases hcs : st.caughtSignal with
      | none => rfl
      | some sig => cases sig <;> simp_all
    cases b with
    | false =>
      rw [if_neg (fun hand => by cases hand.1), if_neg (fun hand => by cases hand.1)]
      simp [wrapFinish]
    | true =>
      rw [if_pos ⟨rfl, hterm⟩, if_pos ⟨rfl, hterm⟩]
      simp [wrapFinish, hrest]

/-! Claim theorems. -/

/-- C1 counterexample: in a completed run whose only service fails its
Start with the genuine error "disk full", the errgroup retains that error
as its first error, yet the value WrapServices returns to its caller is
nil, not a non-nil aggregate error carrying the failure. -/
theorem genuine_error_not_surfaced_cex :
    cexSvcs.map Svc.startErr = [some ("disk full")] ∧
    (runTrace cexSvcs cexTrace).map St.groupErr
      = some (some (GErr.fail ("disk full"))) ∧
    (wrapServices (some (fun _ => none)) false cexSvcs cexTrace).map
        (Except.map WrapResult.ret)
      = some (Except.ok none) :=
  ⟨rfl, rfl, rfl⟩

/-- C1 (amended): for every completed supervision run, WrapServices
returns nil regardless of start or stop errors; every genuine error is
retained, with its message and its service name, in the drained outcome
records (and hence in the folded shutdown reason), not in the returned
value. -/
theorem wrapServices_always_returns_nil
    (svcs : List Svc) (acts : List Act) (st : St)
    (f : String → Option String) (b : Bool)
    (hrun : runTrace svcs acts = some st) (hj : joined st = true) :
    (∃ r, wrapFinish (some f) b st = Except.ok r ∧ r.ret = none) ∧
    (∀ (i : Nat) (s : Svc), svcs[i]? = some s →
      startNotifOf s ∈ st.chan ∧ stopNotifOf s ∈ st.chan) ∧
    (∀ s : Svc, (startNotifOf s).err = s.startErr ∧ (startNotifOf s).service = s.name ∧
      (stopNotifOf s).err = s.stopErr ∧ (stopNotifOf s).service = s.name) := by
  refine ⟨⟨_, wrapFinish_ok f b st, rfl⟩, ?_, ?_⟩
  · exact joined_records (runTrace_wf hrun) hj
  · intro s
    exact ⟨rfl, rfl, rfl, rfl⟩

/-- C1 witness: the amended theorem applied to the concrete failing run. -/
theorem wrapServices_always_returns_nil_witness :
    (∃ r, wrapFinish (some (fun _ => none)) false cexSt = Except.ok r ∧ r.ret = none) ∧
    startNotifOf cexSvc ∈ cexSt.chan ∧ stopNotifOf cexSvc ∈ cexSt.chan := by
  have h := wrapServices_always_returns_nil cexSvcs cexTrace cexSt
    (fun _ => none) false rfl rfl
  exact ⟨h.1, (h.2.1 0 cexSvc rfl).1, (h.2.1 0 cexSvc rfl).2⟩

/-- C2: WrapServices proceeds past svcGroup.Wait() only once every
service's stop goroutine has finished: in every completed run every
service's stop flag is set and its stop outcome record is in the drained
channel; with zero services the degenerate empty run completes and
WrapServices returns nil. -/
theorem supervisor_returns_after_all_stops
    (svcs : List Svc) (acts : List Act) (st : St)
    (hrun : runTrace svcs acts = some st) (hj : joined st = true) :
    (∀ i : Nat, i < svcs.length → st.stopDone.getD i false = true) ∧
    (∀ (i : Nat) (s : Svc), svcs[i]? = some s → stopNotifOf s ∈ st.chan) ∧
    (∀ (f : String → Option String) (b : Bool),
      ∃ r, wrapServices (some f) b [] [] = some (Except.ok r) ∧ r.ret = none) := by
  have hw := runTrace_wf hrun
  refine ⟨?_, ?_, ?_⟩
  · intro i hi
    exact (joined_flags hw hj i hi).2
  · intro i s hsv
    exact (joined_records hw hj i s hsv).2
  · intro f b
    have hnil : wrapServices (some f) b [] [] = some (wrapFinish (some f) b (initSt [])) :=
      rfl
    rw [hnil, wrapFinish_ok]
    exact ⟨_, rfl, rfl⟩

/-- C2 witness: the theorem applied to the concrete one-service run. -/
theorem supervisor_returns_after_all_stops_witness :
    exSt.stopDone.getD 0 false = true ∧ stopNotifOf exSvc ∈ exSt.chan ∧
    (∃ r, wrapServices (some (fun _ => none)) true [] [] = some (Except.ok r) ∧
      r.ret = none) := by
  have h := supervisor_returns_after_all_stops exSvcs exTrace exSt rfl rfl
  exact ⟨h.1 0 (by decide), h.2.1 0 exSvc rfl, h.2.2 (fun _ => none) true⟩

/-- C3: a Start returning nil makes the start goroutine hand the errDone
sentinel to the errgroup; the sentinel is distinct from every genuine
failure value; any start goroutine having returned implies the shared
context is cancelled, so every service's stop runs; and in a completed
all-nil run the aggregate error is nil while every stop record is
present. -/
theorem clean_completion_cancels_and_stops_all
    (svcs : List Svc) (acts : List Act) (st : St)
    (f : String → Option String) (b : Bool)
    (hrun : runTrace svcs acts = some st) (hj : joined st = true)
    (_hclean : ∀ s ∈ svcs, s.startErr = none) :
    (∀ s : Svc, s.startErr = none → startRetOf s = GErr.done) ∧
    (∀ msg : String, GErr.done ≠ GErr.fail msg) ∧
    (∀ i : Nat, st.startDone.getD i false = true → st.cancelled = true) ∧
    (∃ r, wrapFinish (some f) b st = Except.ok r ∧ r.ret = none) ∧
    (∀ (i : Nat) (s : Svc), svcs[i]? = some s → stopNotifOf s ∈ st.chan) := by
  have hw := runTrace_wf hrun
  refine ⟨?_, ?_, hw.startCancel, ⟨_, wrapFinish_ok f b st, rfl⟩, ?_⟩
  · intro s hs
    simp [startRetOf, hs]
  · intro msg hcontra
    cases hcontra
  · intro i s hsv
    exact (joined_records hw hj i s hsv).2

/-- C3 witness: the theorem applied to the concrete all-nil run. -/
theorem clean_completion_cancels_and_stops_all_witness :
    startRetOf exSvc = GErr.done ∧ exSt.cancelled = true ∧
    stopNotifOf exSvc ∈ exSt.chan := by
  have h := clean_completion_cancels_and_stops_all exSvcs exTrace exSt
    (fun _ => none) false rfl rfl (by decide)
  exact ⟨h.1 exSvc rfl, h.2.2.1 0 (by decide), h.2.2.2.2 0 exSvc rfl⟩

/-- C4: the notifyErr channel is created with capacity 2 times the number
of services, and every completed run that WrapServices finishes has
exactly 2 times that many outcome records in the channel when it is
closed and drained. -/
theorem two_outcome_records_per_service
    (n : Option (String → Option String)) (b : Bool)
    (svcs : List Svc) (acts : List Act) (res : Except GoPanic WrapResult)
    (h : wrapServices n b svcs acts = some res) :
    notifyErrCapacity svcs = 2 * svcs.length ∧
    ∃ st, runTrace svcs acts = some st ∧ joined st = true ∧
      st.chan.length = 2 * svcs.length ∧ res = wrapFinish n b st := by
  obtain ⟨st, hr, hj, hres⟩ := wrapServices_some_inv h
  exact ⟨by simp [notifyErrCapacity, Nat.mul_comm], st, hr, hj,
    joined_chan_length (runTrace_wf hr) hj, hres⟩

/-- C4 witness: the theorem applied to the concrete one-service run. -/
theorem two_outcome_records_per_service_witness :
    notifyErrCapacity exSvcs = 2 * exSvcs.length ∧
    ∃ st, runTrace exSvcs exTrace = some st ∧ joined st = true ∧
      st.chan.length = 2 * exSvcs.length ∧
      wrapFinish (some (fun _ => none)) false exSt
        = wrapFinish (some (fun _ => none)) false st := by
  have h := two_outcome_records_per_service (some (fun _ => none)) false
    exSvcs exTrace (wrapFinish (some (fun _ => none)) false exSt) rfl
  exact h

/-- C5: in every legal schedule each service's stop is entered at most
once (exactly once in a completed run); a stop can only be entered after
a state in which the shared context is already cancelled; the context is
only ever cancelled by a start returning or a caught signal; and after
any terminal start/stop/signal event the context is cancelled. -/
theorem stop_at_most_once_and_only_after_cancel
    (svcs : List Svc) (acts : List Act) (st : St) (i : Nat)
    (hrun : runTrace svcs acts = some st) :
    acts.count (Act.stopBegin i) ≤ 1 ∧
    (joined st = true → i < svcs.length → acts.count (Act.stopBegin i) = 1) ∧
    (∀ p q, acts = p ++ Act.stopBegin i :: q →
      ∃ stp, runTrace svcs p = some stp ∧ stp.cancelled = true) ∧
    (st.cancelled = true → ∃ a ∈ acts, cancelTrigger a = true) ∧
    (∀ (p : List Act) (a : Act) (st1 : St), runTrace svcs (p ++ [a]) = some st1 →
      terminalAct a = true → st1.cancelled = true) := by
  have hw0 := wf_init svcs
  have hcount := count_stopBegin_foldlM i hw0 hrun
  have hinit : (initSt svcs).stopStarted.getD i false = false := getD_replicate_false _ _
  rw [hinit, if_neg (by decide : ¬ false = true)] at hcount
  refine ⟨?_, ?_, ?_, ?_, ?_⟩
  · by_cases hss : st.stopStarted.getD i false = true
    · rw [if_pos hss] at hcount
      omega
    · rw [if_neg hss] at hcount
      omega
  · intro hj hi
    have hw := runTrace_wf hrun
    have hsd := (joined_flags hw hj i hi).2
    have hss := hw.stopDS i hsd
    rw [if_pos hss] at hcount
    omega
  · intro p q hpq
    exact stopBegin_needs_cancelled (hpq ▸ hrun)
  · intro hc
    exact exists_trigger_of_cancelled hw0 hrun rfl hc
  · intro p a st1 h1 ht
    exact cancelled_after_terminal h1 ht

/-- C5 witness: the theorem applied to the concrete one-service run. -/
theorem stop_at_most_once_and_only_after_cancel_witness :
    exTrace.count (Act.stopBegin 0) = 1 ∧
    (∃ stp, runTrace exSvcs [Act.start 0] = some stp ∧ stp.cancelled = true) := by
  have h := stop_at_most_once_and_only_after_cancel exSvcs exTrace exSt 0 rfl
  exact ⟨h.2.1 rfl (by decide), h.2.2.1 [Act.start 0] [Act.stopEnd 0] rfl⟩

/-- C6: when the caught signal is SIGTERM the notification call is
suppressed while WrapServices still returns normally with nil (even a nil
notification function is safe then); for every other situation the
notification function is invoked, exactly when shouldNotify is set, with
the shutdown reason. -/
theorem restart_signal_suppresses_notification (st : St)
    (f : String → Option String) (b : Bool) :
    (∃ r, wrapFinish (some f) b st = Except.ok r ∧ r.ret = none ∧
      r.notified = (if b = true ∧ st.caughtSignal ≠ some Sig.SIGTERM
                    then some (shutdownReason st) else none)) ∧
    (st.caughtSignal = some Sig.SIGTERM →
      wrapFinish none b st =
        Except.ok { ret := none, reason := shutdownReason st, notified := none
                    notifyRetErr := none }) := by
  refine ⟨⟨_, wrapFinish_ok f b st, rfl, rfl⟩, ?_⟩
  intro hterm
  simp [wrapFinish, hterm]

/-- C6 witness: the theorem applied to the final state with a caught
SIGTERM. -/
theorem restart_signal_suppresses_notification_witness :
    (∃ r, wrapFinish (some (fun _ => none)) true exStTerm = Except.ok r ∧
      r.notified = none) ∧
    wrapFinish none true exStTerm =
      Except.ok { ret := none, reason := shutdownReason exStTerm, notified := none
                  notifyRetErr := none } := by
  have h := restart_signal_suppresses_notification exStTerm (fun _ => none) true
  obtain ⟨⟨r, h1, h2, h3⟩, h4⟩ := h
  refine ⟨⟨r, h1, ?_⟩, h4 rfl⟩
  rw [h3, if_neg]
  intro hand
  exact hand.2 rfl

/-- C7: the shutdown reason is the single-line caught-signal message when
a signal was caught, and the message folded from the outcome records
otherwise; whatever reason is handed to the notification function is
exactly this computed reason. -/
theorem caught_signal_overrides_reason (st : St)
    (f : String → Option String) (b : Bool) :
    (∀ sig : Sig, st.caughtSignal = some sig →
      shutdownReason st = "process caught signal: " ++ sigString sig) ∧
    (st.caughtSignal = none → shutdownReason st = buildShutdownMessage st.chan) ∧
    (∃ r, wrapFinish (some f) b st = Except.ok r ∧ r.reason = shutdownReason st ∧
      ∀ x, r.notified = some x → x = r.reason) := by
  refine ⟨?_, ?_, ?_⟩
  · intro sig hsig
    simp [shutdownReason, hsig]
  · intro hnone
    simp [shutdownReason, hnone]
  · refine ⟨_, wrapFinish_ok f b st, rfl, ?_⟩
    intro x hx
    by_cases hcond : b = true ∧ st.caughtSignal ≠ some Sig.SIGTERM
    · rw [if_pos hcond] at hx
      exact (Option.some.inj hx).symm
    · rw [if_neg hcond] at hx
      cases hx

/-- C7 witness: the theorem applied to a run with a caught interrupt and
to a run with no signal. -/
theorem caught_signal_overrides_reason_witness :
    shutdownReason exStSig = "process caught signal: " ++ sigString Sig.SIGINT ∧
    shutdownReason exSt = buildShutdownMessage exSt.chan := by
  have h1 := caught_signal_overrides_reason exStSig (fun _ => none) true
  have h2 := caught_signal_overrides_reason exSt (fun _ => none) true
  exact ⟨h1.1 Sig.SIGINT rfl, h2.2.1 rfl⟩

/-- C8: the value WrapServices returns does not depend on the
notification function or the error it returns: it is the same as with a
notification function that returns nil, the invocation itself is also
unchanged, and the notification error only lands in the logged field. -/
theorem notify_error_never_escalated (f : String → Option String) (b : Bool) (st : St) :
    (wrapFinish (some f) b st).map WrapResult.ret =
      (wrapFinish (some (fun _ => none)) b st).map WrapResult.ret ∧
    (wrapFinish (some f) b st).map WrapResult.notified =
      (wrapFinish (some (fun _ => none)) b st).map WrapResult.notified ∧
    (∃ r, wrapFinish (some f) b st = Except.ok r ∧ r.ret = none ∧
      r.notifyRetErr = (if b = true ∧ st.caughtSignal ≠ some Sig.SIGTERM
                        then f (shutdownReason st) else none)) := by
  refine ⟨?_, ?_, ⟨_, wrapFinish_ok f b st, rfl, rfl⟩⟩
  · rw [wrapFinish_ok f b st, wrapFinish_ok (fun _ => none) b st]
    rfl
  · rw [wrapFinish_ok f b st, wrapFinish_ok (fun _ => none) b st]
    rfl

/-- C9: the GenericService built by NewService forwards exactly: Name
returns the stored name, Start returns the stored start callable's result
with its exact effect on the world, and Stop forwards the context and the
world to the stored shutdown callable, adding nothing. -/
theorem generic_service_forwards_exactly {σ γ ε : Type} (nm : String)
    (start : StartFunc σ ε) (shutdown : ShutdownFunc σ γ ε) (ctx : γ) (w : σ) :
    (NewService nm start shutdown).Name = nm ∧
    (NewService nm start shutdown).Start w = start w ∧
    (NewService nm start shutdown).Stop ctx w = shutdown ctx w :=
  ⟨rfl, rfl, rfl⟩

/-- C10: on the notification path (shouldNotify true and the trigger not
SIGTERM) WrapServices invokes the notification function without a nil
guard, so a nil function value is invoked and the invocation panics. -/
theorem nil_notify_function_panics (st : St)
    (h : st.caughtSignal ≠ some Sig.SIGTERM) :
    wrapFinish none true st = Except.error GoPanic.nilFuncCall := by
  have hrest :
      (match st.caughtSignal with
        | some Sig.SIGTERM => true
        | _ => false) = false := by
    cases hcs : st.caughtSignal with
    | none => rfl
    | some sig => cases sig <;> simp_all
  simp [wrapFinish, hrest]

/-- C10 witness: the theorem applied to the signal-free final state. -/
theorem nil_notify_function_panics_witness :
    wrapFinish none true exSt = Except.error GoPanic.nilFuncCall :=
  nil_notify_function_panics exSt (by decide)

end ExitHandler
